import Mathlib

/-
Verification of the double-precision BLAS kernel library (wasm-blas-ts).

The C++ kernels are shallowly embedded over exact rational arithmetic:
a caller-owned buffer of doubles becomes a total function from Int to
the rationals, in-place writes become Function.update, and each loop
becomes a structural recursion whose counter is the number of
iterations the source loop performs.  Index variables that the source
advances incrementally (ix += incx) appear here in the equivalent
closed form (ix0 + i * incx).  While loops whose iteration count is
not statically bounded (the drotmg rescaling loops) take explicit fuel
and return an Option.
-/

/-- A caller-owned buffer of doubles, modelled as a total map from
(pointer offset) indices to exact rationals. -/
def Buf : Type := Int → ℚ

/-- In-place store of one buffer element, as in the C code writes. -/
def upd (b : Buf) (i : Int) (v : ℚ) : Buf := Function.update b i v

@[simp] lemma upd_same (b : Buf) (i : Int) (v : ℚ) : upd b i v i = v := by
  simp [upd]

lemma upd_other (b : Buf) (i p : Int) (v : ℚ) (h : p ≠ i) : upd b i v p = b p := by
  simp [upd, Function.update, h]

/-- Run a counted loop: iterN n f a performs the body f for counter
values 0, 1, ..., n-1 in that order, threading the state. -/
def iterN {α : Type} : Nat → (Nat → α → α) → α → α
  | 0, _, a => a
  | n + 1, f, a => f n (iterN n f a)

@[simp] lemma iterN_zero {α : Type} (f : Nat → α → α) (a : α) : iterN 0 f a = a := rfl

lemma iterN_succ {α : Type} (n : Nat) (f : Nat → α → α) (a : α) :
    iterN (n + 1) f a = f n (iterN n f a) := rfl

/-- Start offset of a strided vector of length n with increment inc:
the C kernels set kx = (-n + 1) * incx when incx < 0 and 0 otherwise. -/
def vecStart (n : Int) (inc : Int) : Int := if inc < 0 then (-n + 1) * inc else 0

/-- Decode of the transpose-mode character, as in the C sources:
notran = (trans == 'N' || trans == 'n'). -/
def noTrans (t : Char) : Bool := t == 'N' || t == 'n'

/-- Decode of the triangle-selector character, as in the C sources:
upper = (uplo == 'U' || uplo == 'u'). -/
def isUpper (u : Char) : Bool := u == 'U' || u == 'u'

/-- One pass of the unrolled unit-stride daxpy loop: four consecutive
elements starting at offset i receive alpha * x plus y. -/
def daxpyBlock (alpha : ℚ) (x : Buf) (i : Int) (yy : Buf) : Buf :=
  let a0 := upd yy i (yy i + alpha * x i)
  let a1 := upd a0 (i + 1) (a0 (i + 1) + alpha * x (i + 1))
  let a2 := upd a1 (i + 2) (a1 (i + 2) + alpha * x (i + 2))
  upd a2 (i + 3) (a2 (i + 3) + alpha * x (i + 3))

/-- Unit-stride path of daxpy: clean-up loop over the first n mod 4
elements followed by the unrolled loop over blocks of four. -/
def daxpyUnit (n : Int) (alpha : ℚ) (x y : Buf) : Buf :=
  let N := n.toNat
  let m := N % 4
  let y1 := iterN m (fun i yy => upd yy i (yy i + alpha * x i)) y
  if n < 4 then y1
  else iterN ((N - m) / 4) (fun t yy => daxpyBlock alpha x ((m : Int) + 4 * t) yy) y1

/-- General strided path of daxpy, with the running offsets of the
source in closed form. -/
def daxpyGen (n : Int) (alpha : ℚ) (x : Buf) (incx : Int) (y : Buf) (incy : Int) : Buf :=
  let kx := vecStart n incx
  let ky := vecStart n incy
  iterN n.toNat (fun i yy =>
    let ix := kx + i * incx
    let iy := ky + i * incy
    upd yy iy (yy iy + alpha * x ix)) y

/-- DAXPY from src/src/cpp/daxpy.cpp: y = alpha * x + y with quick
returns for n <= 0 and alpha = 0, a remainder-plus-unrolled-by-4 path
for unit strides, and the general strided path otherwise. -/
def daxpy (n : Int) (alpha : ℚ) (x : Buf) (incx : Int) (y : Buf) (incy : Int) : Buf :=
  if n ≤ 0 then y
  else if alpha = 0 then y
  else if incx = 1 ∧ incy = 1 then daxpyUnit n alpha x y
  else daxpyGen n alpha x incx y incy

/-- DDOT from src/src/cpp/ddot.cpp: sum of x[i] * y[i], with a quick
return for n <= 0, a remainder-plus-unrolled-by-5 path for unit strides
and the general strided path otherwise. -/
def ddot (n : Int) (x : Buf) (incx : Int) (y : Buf) (incy : Int) : ℚ :=
  if n ≤ 0 then 0
  else if incx = 1 ∧ incy = 1 then
    let N := n.toNat
    let m := N % 5
    let s1 := iterN m (fun i s => s + x i * y i) 0
    if n < 5 then s1
    else
      iterN ((N - m) / 5) (fun t s =>
        let i : Int := (m : Int) + 5 * t
        s + x i * y i + x (i + 1) * y (i + 1) + x (i + 2) * y (i + 2) +
          x (i + 3) * y (i + 3) + x (i + 4) * y (i + 4)) s1
  else
    let kx := vecStart n incx
    let ky := vecStart n incy
    iterN n.toNat (fun i s => s + x (kx + i * incx) * y (ky + i * incy)) 0

/-- DASUM from src/src/cpp/dtpmv.cpp (second unit in that file): sum of
absolute values, with a quick return for n <= 0 or incx <= 0, a
remainder-plus-unrolled-by-6 path for unit stride, and a positive
stride path walking offsets 0, incx, ..., (n-1)*incx otherwise. -/
def dasum (n : Int) (x : Buf) (incx : Int) : ℚ :=
  if n ≤ 0 ∨ incx ≤ 0 then 0
  else if incx = 1 then
    let N := n.toNat
    let m := N % 6
    let s1 := iterN m (fun i s => s + |x i|) 0
    if n < 6 then s1
    else
      iterN ((N - m) / 6) (fun t s =>
        let i : Int := (m : Int) + 6 * t
        s + |x i| + |x (i + 1)| + |x (i + 2)| + |x (i + 3)| +
          |x (i + 4)| + |x (i + 5)|) s1
  else
    iterN n.toNat (fun i s => s + |x (i * incx)|) 0

/-- Rotation loop shared by the two drot paths, with the positions of
the logical element pairs given by the maps posx and posy. -/
def drotLoop (n : Nat) (posx posy : Nat → Int) (c s : ℚ) (x y : Buf) : Buf × Buf :=
  iterN n (fun i xy =>
    let t := c * xy.1 (posx i) + s * xy.2 (posy i)
    (upd xy.1 (posx i) t,
     upd xy.2 (posy i) (c * xy.2 (posy i) - s * xy.1 (posx i)))) (x, y)

/-- DROT from src/src/cpp/drot.cpp: plane rotation applied in place to
the element pairs of x and y; quick return for n <= 0, a unit-stride
path and the general strided path. -/
def drot (n : Int) (x : Buf) (incx : Int) (y : Buf) (incy : Int) (c s : ℚ) : Buf × Buf :=
  if n ≤ 0 then (x, y)
  else if incx = 1 ∧ incy = 1 then
    drotLoop n.toNat (fun i => (i : Int)) (fun i => (i : Int)) c s x y
  else
    drotLoop n.toNat (fun i => vecStart n incx + (i : Int) * incx)
      (fun i => vecStart n incy + (i : Int) * incy) c s x y

/-- DROTG from src/src/cpp/drotg.cpp, returning (r, z, c, s), the final
contents of a, b, c, s.  The machine constants safmin and safmax are
the exact powers of two the source computes from the double exponent
range.  The real square root used by the general branch is not
rational, so the routine takes the square-root map as an explicit
argument; the two special-case branches never consult it. -/
def drotgSafmin : ℚ := 1 / 2 ^ (1022 : ℕ)

/-- Safmax constant of drotg: 2 raised to 1023. -/
def drotgSafmax : ℚ := 2 ^ (1023 : ℕ)

def drotg (a b : ℚ) (sqrtFn : ℚ → ℚ) : ℚ × ℚ × ℚ × ℚ :=
  let anorm := |a|
  let bnorm := |b|
  if bnorm = 0 then (a, 0, 1, 0)
  else if anorm = 0 then (b, 1, 0, 1)
  else
    let scl := min drotgSafmax (max drotgSafmin (max anorm bnorm))
    let sigma : ℚ := if anorm > bnorm then (if a ≥ 0 then 1 else -1)
      else (if b ≥ 0 then 1 else -1)
    let r := sigma * (scl * sqrtFn ((a / scl) * (a / scl) + (b / scl) * (b / scl)))
    let c := a / r
    let s := b / r
    let z := if anorm > bnorm then s else if c ≠ 0 then 1 / c else 1
    (r, z, c, s)

/-- Gam constant of drotmg: 4096. -/
def mgGam : ℚ := 4096

/-- Gamsq constant of drotmg, written 16777216.0 in the source. -/
def mgGamsq : ℚ := 16777216

/-- Rgamsq constant of drotmg, the decimal literal 5.9604645e-8 of the
source, modelled as the exact value of that decimal string. -/
def mgRgamsq : ℚ := 59604645 / 10 ^ (15 : ℕ)

/-- Working state of drotmg ahead of the final parameter write. -/
structure MgState where
  dflag : ℚ
  dh11 : ℚ
  dh12 : ℚ
  dh21 : ℚ
  dh22 : ℚ
  dd1 : ℚ
  dd2 : ℚ
  dx1 : ℚ
deriving DecidableEq, Repr

/-- Entry normalisation performed at the top of each rescaling
iteration of drotmg: a flag of zero restores the implicit unit
diagonal, any other flag restores the implicit off-diagonal pair, and
the flag becomes -1. -/
def mgNorm (s : MgState) : MgState :=
  if s.dflag = 0 then { s with dh11 := 1, dh22 := 1, dflag := -1 }
  else { s with dh21 := -1, dh12 := 1, dflag := -1 }

/-- Guard of the first drotmg rescaling loop, on dd1. -/
def mgCond1 (s : MgState) : Prop := s.dd1 ≤ mgRgamsq ∨ mgGamsq ≤ s.dd1

instance (s : MgState) : Decidable (mgCond1 s) := by unfold mgCond1; infer_instance

/-- Body of the first drotmg rescaling loop: after normalising the
flag, dd1 moves by a factor gamsq while dx1, dh11 and dh12 move by a
factor gam, upward or downward according to the side of the range dd1
escaped on. -/
def mgStep1 (s : MgState) : MgState :=
  let t := mgNorm s
  if t.dd1 ≤ mgRgamsq then
    { t with dd1 := t.dd1 * mgGamsq, dx1 := t.dx1 / mgGam,
             dh11 := t.dh11 / mgGam, dh12 := t.dh12 / mgGam }
  else
    { t with dd1 := t.dd1 / mgGamsq, dx1 := t.dx1 * mgGam,
             dh11 := t.dh11 * mgGam, dh12 := t.dh12 * mgGam }

/-- First drotmg rescaling loop with explicit fuel. -/
def mgLoop1 : Nat → MgState → Option MgState
  | 0, s => if mgCond1 s then none else some s
  | f + 1, s => if mgCond1 s then mgLoop1 f (mgStep1 s) else some s

/-- Guard of the second drotmg rescaling loop, on the absolute value
of dd2. -/
def mgCond2 (s : MgState) : Prop := |s.dd2| ≤ mgRgamsq ∨ mgGamsq ≤ |s.dd2|

instance (s : MgState) : Decidable (mgCond2 s) := by unfold mgCond2; infer_instance

/-- Body of the second drotmg rescaling loop: after normalising the
flag, dd2 moves by a factor gamsq while dh21 and dh22 move by a factor
gam. -/
def mgStep2 (s : MgState) : MgState :=
  let t := mgNorm s
  if |t.dd2| ≤ mgRgamsq then
    { t with dd2 := t.dd2 * mgGamsq, dh21 := t.dh21 / mgGam, dh22 := t.dh22 / mgGam }
  else
    { t with dd2 := t.dd2 / mgGamsq, dh21 := t.dh21 * mgGam, dh22 := t.dh22 * mgGam }

/-- Second drotmg rescaling loop with explicit fuel. -/
def mgLoop2 : Nat → MgState → Option MgState
  | 0, s => if mgCond2 s then none else some s
  | f + 1, s => if mgCond2 s then mgLoop2 f (mgStep2 s) else some s

/-- Final parameter write of drotmg: a negative flag stores all four
coefficients, flag zero stores only the off-diagonal pair, and flag
one stores only the diagonal pair; the flag itself is stored last. -/
def mgWriteParam (s : MgState) (param : Fin 5 → ℚ) : Fin 5 → ℚ :=
  let p1 :=
    if s.dflag < 0 then
      Function.update (Function.update (Function.update (Function.update param
        1 s.dh11) 2 s.dh21) 3 s.dh12) 4 s.dh22
    else if s.dflag = 0 then
      Function.update (Function.update param 2 s.dh21) 3 s.dh12
    else
      Function.update (Function.update param 1 s.dh11) 4 s.dh22
  Function.update p1 0 s.dflag

/-- Result record of drotmg: final dd1, dd2, dx1 and parameter array. -/
structure RotmgResult where
  dd1 : ℚ
  dd2 : ℚ
  dx1 : ℚ
  param : Fin 5 → ℚ

/-- DROTMG from src/unnamed/part_010.  The two while loops of the
scale check take the given fuel; none is returned only when the fuel
runs out. -/
def drotmg (fuel : Nat) (dd1 dd2 dx1 dy1 : ℚ) (param : Fin 5 → ℚ) : Option RotmgResult :=
  if dd1 < 0 then
    let s : MgState := ⟨-1, 0, 0, 0, 0, 0, 0, 0⟩
    some ⟨s.dd1, s.dd2, s.dx1, mgWriteParam s param⟩
  else
    let dp2 := dd2 * dy1
    if dp2 = 0 then
      some ⟨dd1, dd2, dx1, Function.update param 0 (-2)⟩
    else
      let dp1 := dd1 * dx1
      let dq2 := dp2 * dy1
      let dq1 := dp1 * dx1
      let s0 : MgState :=
        if |dq1| > |dq2| then
          let dh21 := -dy1 / dx1
          let dh12 := dp2 / dp1
          let du := 1 - dh12 * dh21
          if du > 0 then
            ⟨0, 0, dh12, dh21, 0, dd1 / du, dd2 / du, dx1 * du⟩
          else
            ⟨-1, 0, 0, 0, 0, 0, 0, 0⟩
        else
          if dq2 < 0 then
            ⟨-1, 0, 0, 0, 0, 0, 0, 0⟩
          else
            let dh11 := dp1 / dp2
            let dh22 := dx1 / dy1
            let du := 1 + dh11 * dh22
            ⟨1, dh11, 0, 0, dh22, dd2 / du, dd1 / du, dy1 * du⟩
      match (if s0.dd1 ≠ 0 then mgLoop1 fuel s0 else some s0) with
      | none => none
      | some s1 =>
        match (if s1.dd2 ≠ 0 then mgLoop2 fuel s1 else some s1) with
        | none => none
        | some s2 => some ⟨s2.dd1, s2.dd2, s2.dx1, mgWriteParam s2 param⟩

/-- Scaling pass applied to y by the no-transpose branches of dgemv
(the source places it after the accumulation loops): positions
ky, ky + incy, ..., ky + (m-1)*incy are zeroed when beta = 0 and
multiplied by beta otherwise; beta = 1 leaves y as it is. -/
def dgemvBetaPass (m : Int) (beta : ℚ) (y : Buf) (ky incy : Int) : Buf :=
  if beta = 1 then y
  else if beta = 0 then
    iterN m.toNat (fun i yy => upd yy (ky + i * incy) 0) y
  else
    iterN m.toNat (fun i yy => upd yy (ky + i * incy) (beta * yy (ky + i * incy))) y

/-- Accumulation pass of the no-transpose branches of dgemv: for each
column j with a nonzero x element, add temp times the column into y. -/
def dgemvAccum (m n : Int) (alpha : ℚ) (a : Buf) (lda : Int) (x : Buf)
    (kx incx : Int) (y : Buf) (ky incy : Int) : Buf :=
  iterN n.toNat (fun j yy =>
    if x (kx + j * incx) ≠ 0 then
      let temp := alpha * x (kx + j * incx)
      iterN m.toNat (fun i yy2 =>
        upd yy2 (ky + i * incy) (yy2 (ky + i * incy) + temp * a (i + j * lda))) yy
    else yy) y

/-- Column sum of the transpose branches of dgemv: temp accumulates
a(i, j) times x over the rows of column j. -/
def dgemvColDot (m : Int) (a : Buf) (lda : Int) (j : Int) (x : Buf) (kx incx : Int) : ℚ :=
  iterN m.toNat (fun i t => t + a (i + j * lda) * x (kx + i * incx)) 0

/-- DGEMV from src/src/cpp/dgemv.cpp.  The embedding mirrors the
source control flow: in the no-transpose branches the beta scaling of
y runs after the accumulation of alpha times A times x (the order the
source actually has); the transpose branches combine alpha times the
column sum and beta times y in one store.  The start offsets kx and ky
are computed from n and m respectively in every branch, exactly as the
source does. -/
def dgemv (trans : Char) (m n : Int) (alpha : ℚ) (a : Buf) (lda : Int)
    (x : Buf) (incx : Int) (beta : ℚ) (y : Buf) (incy : Int) : Buf :=
  if m = 0 ∨ n = 0 ∨ (alpha = 0 ∧ beta = 1) then y
  else
    let kx := vecStart n incx
    let ky := vecStart m incy
    if noTrans trans then
      if incx = 1 then
        if incy = 1 then
          dgemvBetaPass m beta (dgemvAccum m n alpha a lda x 0 1 y 0 1) 0 1
        else
          dgemvBetaPass m beta (dgemvAccum m n alpha a lda x 0 1 y ky incy) ky incy
      else
        if incy = 1 then
          dgemvBetaPass m beta (dgemvAccum m n alpha a lda x kx incx y 0 1) 0 1
        else
          dgemvBetaPass m beta (dgemvAccum m n alpha a lda x kx incx y ky incy) ky incy
    else
      if incx = 1 then
        if incy = 1 then
          iterN n.toNat (fun j yy =>
            upd yy j (alpha * dgemvColDot m a lda j x 0 1 + beta * yy j)) y
        else
          iterN n.toNat (fun j yy =>
            let jy := ky + j * incy
            upd yy jy (alpha * dgemvColDot m a lda j x 0 1 + beta * yy jy)) y
      else
        if incy = 1 then
          iterN n.toNat (fun j yy =>
            upd yy j (alpha * dgemvColDot m a lda j x kx incx + beta * yy j)) y
        else
          iterN n.toNat (fun j yy =>
            let jy := ky + j * incy
            upd yy jy (alpha * dgemvColDot m a lda j x kx incx + beta * yy jy)) y

/-- Beta handling of one dgemm column j when alpha is nonzero, placed
before the accumulation as the source has it for the no-transpose-B
branches. -/
def dgemmColBeta (m : Int) (beta : ℚ) (j ldc : Int) (c : Buf) : Buf :=
  if beta = 0 then iterN m.toNat (fun i cc => upd cc (i + j * ldc) 0) c
  else if beta ≠ 1 then
    iterN m.toNat (fun i cc => upd cc (i + j * ldc) (beta * cc (i + j * ldc))) c
  else c

/-- DGEMM from src/unnamed/part_012: C = alpha * op(A) * op(B) +
beta * C with the quick return, the dedicated alpha = 0 scaling
branch, and the four transpose-combination loop orders of the
source. -/
def dgemm (transa transb : Char) (m n k : Int) (alpha : ℚ) (a : Buf) (lda : Int)
    (b : Buf) (ldb : Int) (beta : ℚ) (c : Buf) (ldc : Int) : Buf :=
  if m = 0 ∨ n = 0 ∨ ((alpha = 0 ∨ k = 0) ∧ beta = 1) then c
  else if alpha = 0 then
    if beta = 0 then
      iterN n.toNat (fun j cc =>
        iterN m.toNat (fun i cc2 => upd cc2 (i + j * ldc) 0) cc) c
    else
      iterN n.toNat (fun j cc =>
        iterN m.toNat (fun i cc2 =>
          upd cc2 (i + j * ldc) (beta * cc2 (i + j * ldc))) cc) c
  else if noTrans transb then
    if noTrans transa then
      iterN n.toNat (fun j cc =>
        let cc1 := dgemmColBeta m beta j ldc cc
        iterN k.toNat (fun l cc2 =>
          let temp := alpha * b (l + j * ldb)
          iterN m.toNat (fun i cc3 =>
            upd cc3 (i + j * ldc) (cc3 (i + j * ldc) + temp * a (i + l * lda))) cc2) cc1) c
    else
      iterN n.toNat (fun j cc =>
        iterN m.toNat (fun i cc2 =>
          let temp := iterN k.toNat (fun l t => t + a (l + i * lda) * b (l + j * ldb)) 0
          if beta = 0 then upd cc2 (i + j * ldc) (alpha * temp)
          else upd cc2 (i + j * ldc) (alpha * temp + beta * cc2 (i + j * ldc))) cc) c
  else
    if noTrans transa then
      iterN n.toNat (fun j cc =>
        let cc1 := dgemmColBeta m beta j ldc cc
        iterN k.toNat (fun l cc2 =>
          let temp := alpha * b (j + l * ldb)
          iterN m.toNat (fun i cc3 =>
            upd cc3 (i + j * ldc) (cc3 (i + j * ldc) + temp * a (i + l * lda))) cc2) cc1) c
    else
      iterN n.toNat (fun j cc =>
        iterN m.toNat (fun i cc2 =>
          let temp := iterN k.toNat (fun l t => t + a (l + i * lda) * b (j + l * ldb)) 0
          if beta = 0 then upd cc2 (i + j * ldc) (alpha * temp)
          else upd cc2 (i + j * ldc) (alpha * temp + beta * cc2 (i + j * ldc))) cc) c

/-- Beta handling of one dsyrk column j restricted to the stored
triangle, placed before the accumulation as the source has it for the
no-transpose branches; rows run over 0..j for the upper triangle and
j..n-1 for the lower one. -/
def dsyrkColBeta (upper : Bool) (n : Int) (beta : ℚ) (j : Nat) (ldc : Int) (c : Buf) : Buf :=
  if upper then
    if beta = 0 then iterN (j + 1) (fun i cc => upd cc (i + j * ldc) 0) c
    else if beta ≠ 1 then
      iterN (j + 1) (fun i cc => upd cc (i + j * ldc) (beta * cc (i + j * ldc))) c
    else c
  else
    if beta = 0 then
      iterN (n.toNat - j) (fun t cc => upd cc ((j + t : Nat) + j * ldc) 0) c
    else if beta ≠ 1 then
      iterN (n.toNat - j) (fun t cc =>
        upd cc ((j + t : Nat) + j * ldc) (beta * cc ((j + t : Nat) + j * ldc))) c
    else c

/-- DSYRK from the second unit of src/src/cpp/daxpby.cpp: symmetric
rank-k update touching only the selected triangle of C, with the quick
return, the dedicated alpha = 0 scaling branch, and the two transpose
forms of the source. -/
def dsyrk (uplo trans : Char) (n k : Int) (alpha : ℚ) (a : Buf) (lda : Int)
    (beta : ℚ) (c : Buf) (ldc : Int) : Buf :=
  if n = 0 ∨ ((alpha = 0 ∨ k = 0) ∧ beta = 1) then c
  else if alpha = 0 then
    if isUpper uplo then
      if beta = 0 then
        iterN n.toNat (fun j cc =>
          iterN (j + 1) (fun i cc2 => upd cc2 (i + j * ldc) 0) cc) c
      else
        iterN n.toNat (fun j cc =>
          iterN (j + 1) (fun i cc2 =>
            upd cc2 (i + j * ldc) (beta * cc2 (i + j * ldc))) cc) c
    else
      if beta = 0 then
        iterN n.toNat (fun j cc =>
          iterN (n.toNat - j) (fun t cc2 => upd cc2 ((j + t : Nat) + j * ldc) 0) cc) c
      else
        iterN n.toNat (fun j cc =>
          iterN (n.toNat - j) (fun t cc2 =>
            upd cc2 ((j + t : Nat) + j * ldc) (beta * cc2 ((j + t : Nat) + j * ldc))) cc) c
  else if noTrans trans then
    if isUpper uplo then
      iterN n.toNat (fun j cc =>
        let cc1 := dsyrkColBeta true n beta j ldc cc
        iterN k.toNat (fun l cc2 =>
          if a (j + l * lda) ≠ 0 then
            let temp := alpha * a (j + l * lda)
            iterN (j + 1) (fun i cc3 =>
              upd cc3 (i + j * ldc) (cc3 (i + j * ldc) + temp * a (i + l * lda))) cc2
          else cc2) cc1) c
    else
      iterN n.toNat (fun j cc =>
        let cc1 := dsyrkColBeta false n beta j ldc cc
        iterN k.toNat (fun l cc2 =>
          if a (j + l * lda) ≠ 0 then
            let temp := alpha * a (j + l * lda)
            iterN (n.toNat - j) (fun t cc3 =>
              upd cc3 ((j + t : Nat) + j * ldc)
                (cc3 ((j + t : Nat) + j * ldc) + temp * a ((j + t : Nat) + l * lda))) cc2
          else cc2) cc1) c
  else
    if isUpper uplo then
      iterN n.toNat (fun j cc =>
        iterN (j + 1) (fun i cc2 =>
          let temp := iterN k.toNat (fun l t => t + a (l + i * lda) * a (l + j * lda)) 0
          if beta = 0 then upd cc2 (i + j * ldc) (alpha * temp)
          else upd cc2 (i + j * ldc) (alpha * temp + beta * cc2 (i + j * ldc))) cc) c
    else
      iterN n.toNat (fun j cc =>
        iterN (n.toNat - j) (fun t cc2 =>
          let i : Int := (j + t : Nat)
          let temp := iterN k.toNat (fun l tt => tt + a (l + i * lda) * a (l + j * lda)) 0
          if beta = 0 then upd cc2 (i + j * ldc) (alpha * temp)
          else upd cc2 (i + j * ldc) (alpha * temp + beta * cc2 (i + j * ldc))) cc) c

/-- View of a caller-supplied array as a kernel buffer: the marshaling
layer copies the array to offset 0 of the computation buffer. -/
def listBuf (x : List ℚ) : Buf := fun i =>
  if 0 ≤ i then x.getD i.toNat 0 else 0

/-- Public TypeScript dasum wrapper from src/src/dasum.ts: rejects
negative n with an error, short-circuits to 0 for n = 0 or a
non-positive increment before any buffer work, rejects an undersized
array, and otherwise calls the dasum kernel on the marshalled
buffer. -/
def dasumTs (n : Int) (x : List ℚ) (incx : Int) : Except String ℚ :=
  if n < 0 then .error "n must be positive"
  else if n = 0 ∨ incx ≤ 0 then .ok 0
  else
    let xLen := 1 + (n - 1) * |incx|
    if (x.length : Int) < xLen then .error "x array too small"
    else .ok (dasum n (listBuf x) incx)

/-- One call into the kernel set, naming the buffers it works on by
index into the store. -/
inductive BlasCall where
  | axpy (n : Int) (alpha : ℚ) (ix : Nat) (incx : Int) (iy : Nat) (incy : Int)
  | dot (n : Int) (ix : Nat) (incx : Int) (iy : Nat) (incy : Int)
  | asum (n : Int) (ix : Nat) (incx : Int)
  | rot (n : Int) (ix : Nat) (incx : Int) (iy : Nat) (incy : Int) (c s : ℚ)
  | gemv (trans : Char) (m n : Int) (alpha : ℚ) (ia : Nat) (lda : Int)
      (ix : Nat) (incx : Int) (beta : ℚ) (iy : Nat) (incy : Int)
  | gemm (transa transb : Char) (m n k : Int) (alpha : ℚ) (ia : Nat) (lda : Int)
      (ib : Nat) (ldb : Int) (beta : ℚ) (ic : Nat) (ldc : Int)
  | syrk (uplo trans : Char) (n k : Int) (alpha : ℚ) (ia : Nat) (lda : Int)
      (beta : ℚ) (ic : Nat) (ldc : Int)

/-- The caller-owned memory: a family of buffers indexed by name. -/
def Store : Type := Nat → Buf

/-- Effect of one call on the store: each routine overwrites exactly
its designated output buffer with the value its embedding computes
from the store at call time.  No other component of the state exists,
mirroring the absence of globals and statics in the sources. -/
def applyCall : BlasCall → Store → Store
  | .axpy n alpha ix incx iy incy, st =>
      Function.update st iy (daxpy n alpha (st ix) incx (st iy) incy)
  | .dot _ _ _ _ _, st => st
  | .asum _ _ _, st => st
  | .rot n ix incx iy incy c s, st =>
      let r := drot n (st ix) incx (st iy) incy c s
      Function.update (Function.update st ix r.1) iy r.2
  | .gemv tr m n alpha ia lda ix incx beta iy incy, st =>
      Function.update st iy (dgemv tr m n alpha (st ia) lda (st ix) incx beta (st iy) incy)
  | .gemm tra trb m n k alpha ia lda ib ldb beta ic ldc, st =>
      Function.update st ic
        (dgemm tra trb m n k alpha (st ia) lda (st ib) ldb beta (st ic) ldc)
  | .syrk up tr n k alpha ia lda beta ic ldc, st =>
      Function.update st ic (dsyrk up tr n k alpha (st ia) lda beta (st ic) ldc)

/-- Scalar a call returns to the caller, if any. -/
def callValue : BlasCall → Store → Option ℚ
  | .dot n ix incx iy incy, st => some (ddot n (st ix) incx (st iy) incy)
  | .asum n ix incx, st => some (dasum n (st ix) incx)
  | _, _ => none

/-- Semantics of a sequence of calls: the store evolves by the effect
of each call in order. -/
def runCalls (cs : List BlasCall) (st : Store) : Store :=
  List.foldl (fun s c => applyCall c s) st cs

lemma upd_apply (b : Buf) (i : Int) (v : ℚ) (p : Int) :
    upd b i v p = if p = i then v else b p := by
  simp [upd, Function.update_apply]

/-- Accumulating loops compute the range sum of their summands. -/
lemma iterN_sum (n : Nat) (g : Nat → ℚ) (s0 : ℚ) :
    iterN n (fun i s => s + g i) s0 = s0 + ∑ i in Finset.range n, g i := by
  induction n with
  | zero => simp
  | succ n ih => rw [iterN_succ, ih, Finset.sum_range_succ]; ring

/-- Characterisation of a counted loop whose iterations touch pairwise
disjoint regions of the buffer: inside iteration j region S j, the
final value is the map g j applied to the original contents, and a
position in no region is untouched. -/
lemma iterN_region_char (n : Nat) (F : Nat → Buf → Buf) (S : Nat → Int → Prop)
    (g : Nat → Int → ℚ → ℚ)
    (hin : ∀ j, j < n → ∀ b p, S j p → F j b p = g j p (b p))
    (hout : ∀ j, j < n → ∀ b p, ¬ S j p → F j b p = b p)
    (hdisj : ∀ i j, i < n → j < n → ∀ p, S i p → S j p → i = j) (c : Buf) :
    (∀ j p, j < n → S j p → iterN n F c p = g j p (c p)) ∧
    (∀ p, (∀ j, j < n → ¬ S j p) → iterN n F c p = c p) := by
  induction n with
  | zero => exact ⟨fun j p hj _ => absurd hj (Nat.not_lt_zero j), fun p _ => rfl⟩
  | succ n ih =>
    obtain ⟨ih1, ih2⟩ := ih (fun j hj => hin j (by omega)) (fun j hj => hout j (by omega))
      (fun i j hi hj => hdisj i j (by omega) (by omega))
    constructor
    · intro j p hj hS
      rw [iterN_succ]
      by_cases hjn : j = n
      · subst hjn
        rw [hin j (by omega) _ p hS]
        congr 1
        refine ih2 p (fun j' hj' hS' => ?_)
        exact absurd (hdisj j' j (by omega) (by omega) p hS' hS) (Nat.ne_of_lt hj')
      · have hjl : j < n := by omega
        have hSn : ¬ S n p := fun hSn => hjn (hdisj j n (by omega) (by omega) p hS hSn)
        rw [hout n (by omega) _ p hSn]
        exact ih1 j p hjl hS
    · intro p hp
      rw [iterN_succ, hout n (by omega) _ p (hp n (Nat.lt_succ_self n))]
      exact ih2 p (fun j hj => hp j (Nat.lt_succ_of_lt hj))

/-- Strided positions with a nonzero increment are distinct for
distinct logical indices. -/
lemma stride_pos_inj (k inc : Int) (hinc : inc ≠ 0) (i j : Nat)
    (h : k + (i : Int) * inc = k + (j : Int) * inc) : i = j := by
  have h2 : ((i : Int) - j) * inc = 0 := by linear_combination h
  rcases mul_eq_zero.mp h2 with h3 | h3
  · have h4 : (i : Int) = j := sub_eq_zero.mp h3
    exact_mod_cast h4
  · exact absurd h3 hinc

lemma daxpyBlock_in (alpha : ℚ) (x : Buf) (i : Int) (yy : Buf) (p : Int)
    (h1 : i ≤ p) (h2 : p < i + 4) :
    daxpyBlock alpha x i yy p = yy p + alpha * x p := by
  have hc : p = i ∨ p = i + 1 ∨ p = i + 2 ∨ p = i + 3 := by omega
  rcases hc with h | h | h | h <;> subst h <;>
    simp only [daxpyBlock, upd_apply] <;> split_ifs <;>
      first | ring1 | (exfalso; omega)

lemma daxpyBlock_out (alpha : ℚ) (x : Buf) (i : Int) (yy : Buf) (p : Int)
    (h : p < i ∨ i + 4 ≤ p) :
    daxpyBlock alpha x i yy p = yy p := by
  have h0 : p ≠ i := by omega
  have h1 : p ≠ i + 1 := by omega
  have h2 : p ≠ i + 2 := by omega
  have h3 : p ≠ i + 3 := by omega
  simp only [daxpyBlock, upd_apply, if_neg h0, if_neg h1, if_neg h2, if_neg h3]

lemma daxpy_rem_char (alpha : ℚ) (x : Buf) (m : Nat) (y : Buf) :
    (∀ i : Nat, i < m →
      iterN m (fun i yy => upd yy i (yy i + alpha * x i)) y (i : Int) = y i + alpha * x i) ∧
    (∀ p : Int, (∀ i : Nat, i < m → p ≠ (i : Int)) →
      iterN m (fun i yy => upd yy i (yy i + alpha * x i)) y p = y p) := by
  have h := iterN_region_char m (fun i yy => upd yy i (yy i + alpha * x i))
      (fun i p => p = (i : Int)) (fun i p v => v + alpha * x p)
      (by intro j hj b p hS; subst hS; simp [upd_apply])
      (by intro j hj b p hS; exact upd_other _ _ _ _ hS)
      (by intro i j hi hj p h1 h2; omega) y
  exact ⟨fun i hi => h.1 i (i : Int) hi rfl, h.2⟩

lemma daxpy_blocks_char (alpha : ℚ) (x : Buf) (m q : Nat) (y1 : Buf) :
    (∀ t : Nat, t < q → ∀ p : Int, (m : Int) + 4 * t ≤ p → p < (m : Int) + 4 * t + 4 →
      iterN q (fun t yy => daxpyBlock alpha x ((m : Int) + 4 * t) yy) y1 p
        = y1 p + alpha * x p) ∧
    (∀ p : Int, (∀ t : Nat, t < q → ¬((m : Int) + 4 * t ≤ p ∧ p < (m : Int) + 4 * t + 4)) →
      iterN q (fun t yy => daxpyBlock alpha x ((m : Int) + 4 * t) yy) y1 p = y1 p) := by
  have h := iterN_region_char q (fun t yy => daxpyBlock alpha x ((m : Int) + 4 * t) yy)
      (fun t p => (m : Int) + 4 * t ≤ p ∧ p < (m : Int) + 4 * t + 4)
      (fun t p v => v + alpha * x p)
      (by intro j hj b p hS; exact daxpyBlock_in alpha x _ b p hS.1 hS.2)
      (by intro j hj b p hS; exact daxpyBlock_out alpha x _ b p (by omega))
      (by intro i j hi hj p h1 h2; omega) y1
  exact ⟨fun t ht p hp1 hp2 => h.1 t p ht ⟨hp1, hp2⟩, h.2⟩

lemma daxpyUnit_char (n : Int) (alpha : ℚ) (x y : Buf) (hn : 0 < n) :
    (∀ i : Nat, i < n.toNat → daxpyUnit n alpha x y (i : Int) = y i + alpha * x i) ∧
    (∀ p : Int, (∀ i : Nat, i < n.toNat → p ≠ (i : Int)) → daxpyUnit n alpha x y p = y p) := by
  have hrem := daxpy_rem_char alpha x (n.toNat % 4) y
  have hblocks := daxpy_blocks_char alpha x (n.toNat % 4) ((n.toNat - n.toNat % 4) / 4)
      (iterN (n.toNat % 4) (fun i yy => upd yy i (yy i + alpha * x i)) y)
  by_cases h4 : n < 4
  case pos =>
    have hEq : daxpyUnit n alpha x y
        = iterN (n.toNat % 4) (fun i yy => upd yy i (yy i + alpha * x i)) y := by
      simp only [daxpyUnit, if_pos h4]
    constructor
    · intro i hi
      rw [hEq]
      exact hrem.1 i (by omega)
    · intro p hp
      rw [hEq]
      exact hrem.2 p (fun i hi => hp i (by omega))
  case neg =>
    have hEq : daxpyUnit n alpha x y
        = iterN ((n.toNat - n.toNat % 4) / 4)
            (fun t yy => daxpyBlock alpha x ((n.toNat % 4 : Nat) + 4 * t) yy)
            (iterN (n.toNat % 4) (fun i yy => upd yy i (yy i + alpha * x i)) y) := by
      simp only [daxpyUnit, if_neg h4]
    constructor
    · intro i hi
      rw [hEq]
      by_cases him : i < n.toNat % 4
      · rw [hblocks.2 (i : Int) (fun t ht hS => by omega)]
        exact hrem.1 i him
      · obtain ⟨t, ht, h1, h2⟩ :
            ∃ t : Nat, t < (n.toNat - n.toNat % 4) / 4 ∧
              ((n.toNat % 4 : Nat) : Int) + 4 * t ≤ (i : Int) ∧
              (i : Int) < ((n.toNat % 4 : Nat) : Int) + 4 * t + 4 :=
          ⟨(i - n.toNat % 4) / 4, by omega, by omega, by omega⟩
        rw [hblocks.1 t ht (i : Int) h1 h2]
        rw [hrem.2 (i : Int) (fun j hj => by omega)]
    · intro p hp
      rw [hEq]
      have h1 : ∀ t : Nat, t < (n.toNat - n.toNat % 4) / 4 →
          ¬(((n.toNat % 4 : Nat) : Int) + 4 * t ≤ p ∧
            p < ((n.toNat % 4 : Nat) : Int) + 4 * t + 4) := by
        intro t ht hS
        exact hp p.toNat (by omega) (by omega)
      rw [hblocks.2 p h1]
      exact hrem.2 p (fun i hi => hp i (by omega))

lemma daxpyGen_char (n : Int) (alpha : ℚ) (x y : Buf) (incx incy : Int) (hincy : incy ≠ 0) :
    (∀ i : Nat, i < n.toNat →
      daxpyGen n alpha x incx y incy (vecStart n incy + (i : Int) * incy)
        = y (vecStart n incy + (i : Int) * incy)
          + alpha * x (vecStart n incx + (i : Int) * incx)) ∧
    (∀ p : Int, (∀ i : Nat, i < n.toNat → p ≠ vecStart n incy + (i : Int) * incy) →
      daxpyGen n alpha x incx y incy p = y p) := by
  have h := iterN_region_char n.toNat
      (fun i yy => upd yy (vecStart n incy + (i : Int) * incy)
        (yy (vecStart n incy + (i : Int) * incy)
          + alpha * x (vecStart n incx + (i : Int) * incx)))
      (fun i p => p = vecStart n incy + (i : Int) * incy)
      (fun i p v => v + alpha * x (vecStart n incx + (i : Int) * incx))
      (by intro j hj b p hS; subst hS; simp [upd_apply])
      (by intro j hj b p hS; exact upd_other _ _ _ _ hS)
      (by
        intro i j hi hj p h1 h2
        exact stride_pos_inj (vecStart n incy) incy hincy i j (by rw [← h1, h2])) y
  exact ⟨fun i hi => h.1 i _ hi rfl, h.2⟩

lemma drotLoop_char (n : Nat) (posx posy : Nat → Int)
    (hx : ∀ i j, posx i = posx j → i = j) (hy : ∀ i j, posy i = posy j → i = j)
    (c s : ℚ) (x y : Buf) :
    (∀ i : Nat, i < n →
      (drotLoop n posx posy c s x y).1 (posx i) = c * x (posx i) + s * y (posy i) ∧
      (drotLoop n posx posy c s x y).2 (posy i) = c * y (posy i) - s * x (posx i)) ∧
    (∀ p : Int, (∀ i : Nat, i < n → posx i ≠ p) → (drotLoop n posx posy c s x y).1 p = x p) ∧
    (∀ p : Int, (∀ i : Nat, i < n → posy i ≠ p) → (drotLoop n posx posy c s x y).2 p = y p) := by
  induction n with
  | zero =>
    refine ⟨fun i hi => absurd hi (Nat.not_lt_zero i), fun p _ => rfl, fun p _ => rfl⟩
  | succ n ih =>
    have hstep : drotLoop (n + 1) posx posy c s x y
        = (upd (drotLoop n posx posy c s x y).1 (posx n)
            (c * (drotLoop n posx posy c s x y).1 (posx n)
              + s * (drotLoop n posx posy c s x y).2 (posy n)),
           upd (drotLoop n posx posy c s x y).2 (posy n)
            (c * (drotLoop n posx posy c s x y).2 (posy n)
              - s * (drotLoop n posx posy c s x y).1 (posx n))) := by
      simp only [drotLoop, iterN_succ]
    have hxn : (drotLoop n posx posy c s x y).1 (posx n) = x (posx n) :=
      ih.2.1 (posx n) (fun i hi he => absurd (hx i n he) (Nat.ne_of_lt hi))
    have hyn : (drotLoop n posx posy c s x y).2 (posy n) = y (posy n) :=
      ih.2.2 (posy n) (fun i hi he => absurd (hy i n he) (Nat.ne_of_lt hi))
    refine ⟨?_, ?_, ?_⟩
    · intro i hi
      by_cases hin : i = n
      · subst hin
        rw [hstep]
        dsimp only
        constructor
        · rw [upd_same, hxn, hyn]
        · rw [upd_same, hxn, hyn]
      · have hil : i < n := by omega
        have hpx : posx i ≠ posx n := fun he => hin (hx i n he)
        have hpy : posy i ≠ posy n := fun he => hin (hy i n he)
        rw [hstep]
        dsimp only
        constructor
        · rw [upd_other _ _ _ _ hpx]
          exact (ih.1 i hil).1
        · rw [upd_other _ _ _ _ hpy]
          exact (ih.1 i hil).2
    · intro p hp
      rw [hstep]
      dsimp only
      rw [upd_other _ _ _ _ (fun he => hp n (Nat.lt_succ_self n) he.symm)]
      exact ih.2.1 p (fun i hi => hp i (Nat.lt_succ_of_lt hi))
    · intro p hp
      rw [hstep]
      dsimp only
      rw [upd_other _ _ _ _ (fun he => hp n (Nat.lt_succ_self n) he.symm)]
      exact ih.2.2 p (fun i hi => hp i (Nat.lt_succ_of_lt hi))

lemma ddot_gen (n : Int) (x : Buf) (incx : Int) (y : Buf) (incy : Int)
    (hn : 0 < n) (h : ¬(incx = 1 ∧ incy = 1)) :
    ddot n x incx y incy
      = ∑ i in Finset.range n.toNat,
          x (vecStart n incx + (i : Int) * incx) * y (vecStart n incy + (i : Int) * incy) := by
  simp only [ddot, if_neg (by omega : ¬ n ≤ 0), if_neg h]
  rw [iterN_sum]
  simp

lemma colPos_inj (ldc i1 i2 j1 j2 : Int) (hi1 : 0 ≤ i1) (hi1l : i1 < ldc)
    (hi2 : 0 ≤ i2) (hi2l : i2 < ldc) (heq : i1 + j1 * ldc = i2 + j2 * ldc) :
    i1 = i2 ∧ j1 = j2 := by
  have hldc : 0 < ldc := by omega
  have key : i1 - i2 = (j2 - j1) * ldc := by linear_combination heq
  have hj : j1 = j2 := by
    rcases lt_trichotomy j1 j2 with h | h | h
    · exfalso
      have h2 : ldc ≤ (j2 - j1) * ldc := le_mul_of_one_le_left (le_of_lt hldc) (by omega)
      rw [← key] at h2
      omega
    · exact h
    · exfalso
      have key2 : i2 - i1 = (j1 - j2) * ldc := by linear_combination -heq
      have h2 : ldc ≤ (j1 - j2) * ldc := le_mul_of_one_le_left (le_of_lt hldc) (by omega)
      rw [← key2] at h2
      omega
  refine ⟨?_, hj⟩
  rw [hj] at key
  simp only [sub_self, zero_mul] at key
  omega

lemma col_inner_char (mN : Nat) (base : Int) (g : ℚ → ℚ) (cc : Buf) :
    (∀ i : Nat, i < mN →
      iterN mN (fun i cc2 => upd cc2 ((i : Int) + base) (g (cc2 ((i : Int) + base)))) cc
        ((i : Int) + base) = g (cc ((i : Int) + base))) ∧
    (∀ p : Int, (∀ i : Nat, i < mN → p ≠ (i : Int) + base) →
      iterN mN (fun i cc2 => upd cc2 ((i : Int) + base) (g (cc2 ((i : Int) + base)))) cc p
        = cc p) := by
  have h := iterN_region_char mN
      (fun i cc2 => upd cc2 ((i : Int) + base) (g (cc2 ((i : Int) + base))))
      (fun i p => p = (i : Int) + base) (fun i p v => g v)
      (by intro j hj b p hS; subst hS; simp [upd_apply])
      (by intro j hj b p hS; exact upd_other _ _ _ _ hS)
      (by intro i j hi hj p h1 h2; omega) cc
  exact ⟨fun i hi => h.1 i _ hi rfl, h.2⟩

/-- Values written by the rectangular alpha-equals-zero scaling loop of
dgemm: every position of the m-by-n block with leading dimension ldc
receives the map g of its original contents. -/
lemma rect_scale_char (mN nN : Nat) (ldc : Int) (hbnd : (mN : Int) ≤ ldc)
    (g : ℚ → ℚ) (c : Buf) :
    ∀ i j : Nat, i < mN → j < nN →
      iterN nN (fun j cc =>
        iterN mN (fun i cc2 =>
          upd cc2 ((i : Int) + (j : Int) * ldc) (g (cc2 ((i : Int) + (j : Int) * ldc)))) cc) c
        ((i : Int) + (j : Int) * ldc)
        = g (c ((i : Int) + (j : Int) * ldc)) := by
  intro i j hi hj
  have h := iterN_region_char nN
      (fun j cc =>
        iterN mN (fun i cc2 =>
          upd cc2 ((i : Int) + (j : Int) * ldc) (g (cc2 ((i : Int) + (j : Int) * ldc)))) cc)
      (fun j p => ∃ i : Nat, i < mN ∧ p = (i : Int) + (j : Int) * ldc)
      (fun j p v => g v)
      (by
        intro j hj b p hS
        obtain ⟨i, hi, rfl⟩ := hS
        exact (col_inner_char mN ((j : Int) * ldc) g b).1 i hi)
      (by
        intro j hj b p hS
        exact (col_inner_char mN ((j : Int) * ldc) g b).2 p
          (fun i hi he => hS ⟨i, hi, he⟩))
      (by
        intro j1 j2 hj1 hj2 p h1 h2
        obtain ⟨i1, hi1, rfl⟩ := h1
        obtain ⟨i2, hi2, he⟩ := h2
        have := colPos_inj ldc i1 i2 j1 j2 (by omega) (by omega) (by omega) (by omega) he
        have hjj : (j1 : Int) = (j2 : Int) := this.2
        exact_mod_cast hjj) c
  exact h.1 j _ hj ⟨i, hi, rfl⟩

/-- Values written by the upper-triangle alpha-equals-zero scaling
loop of dsyrk. -/
lemma tri_upper_scale_char (nN : Nat) (ldc : Int) (hbnd : (nN : Int) ≤ ldc)
    (g : ℚ → ℚ) (c : Buf) :
    ∀ i j : Nat, i ≤ j → j < nN →
      iterN nN (fun j cc =>
        iterN (j + 1) (fun i cc2 =>
          upd cc2 ((i : Int) + (j : Int) * ldc) (g (cc2 ((i : Int) + (j : Int) * ldc)))) cc) c
        ((i : Int) + (j : Int) * ldc)
        = g (c ((i : Int) + (j : Int) * ldc)) := by
  intro i j hi hj
  have h := iterN_region_char nN
      (fun j cc =>
        iterN (j + 1) (fun i cc2 =>
          upd cc2 ((i : Int) + (j : Int) * ldc) (g (cc2 ((i : Int) + (j : Int) * ldc)))) cc)
      (fun j p => ∃ i : Nat, i < j + 1 ∧ p = (i : Int) + (j : Int) * ldc)
      (fun j p v => g v)
      (by
        intro j hj b p hS
        obtain ⟨i, hi, rfl⟩ := hS
        exact (col_inner_char (j + 1) ((j : Int) * ldc) g b).1 i hi)
      (by
        intro j hj b p hS
        exact (col_inner_char (j + 1) ((j : Int) * ldc) g b).2 p
          (fun i hi he => hS ⟨i, hi, he⟩))
      (by
        intro j1 j2 hj1 hj2 p h1 h2
        obtain ⟨i1, hi1, rfl⟩ := h1
        obtain ⟨i2, hi2, he⟩ := h2
        have := colPos_inj ldc i1 i2 j1 j2 (by omega) (by omega) (by omega) (by omega) he
        have hjj : (j1 : Int) = (j2 : Int) := this.2
        exact_mod_cast hjj) c
  exact h.1 j _ hj ⟨i, by omega, rfl⟩

lemma col_inner_off_char (len j : Nat) (base : Int) (g : ℚ → ℚ) (cc : Buf) :
    (∀ t : Nat, t < len →
      iterN len (fun t cc2 =>
        upd cc2 (((j + t : Nat) : Int) + base) (g (cc2 (((j + t : Nat) : Int) + base)))) cc
        (((j + t : Nat) : Int) + base) = g (cc (((j + t : Nat) : Int) + base))) ∧
    (∀ p : Int, (∀ t : Nat, t < len → p ≠ ((j + t : Nat) : Int) + base) →
      iterN len (fun t cc2 =>
        upd cc2 (((j + t : Nat) : Int) + base) (g (cc2 (((j + t : Nat) : Int) + base)))) cc p
        = cc p) := by
  have h := iterN_region_char len
      (fun t cc2 =>
        upd cc2 (((j + t : Nat) : Int) + base) (g (cc2 (((j + t : Nat) : Int) + base))))
      (fun t p => p = ((j + t : Nat) : Int) + base) (fun t p v => g v)
      (by intro t ht b p hS; subst hS; simp [upd_apply])
      (by intro t ht b p hS; exact upd_other _ _ _ _ hS)
      (by intro t1 t2 ht1 ht2 p h1 h2; omega) cc
  exact ⟨fun t ht => h.1 t _ ht rfl, h.2⟩

/-- Values written by the lower-triangle alpha-equals-zero scaling
loop of dsyrk. -/
lemma tri_lower_scale_char (nN : Nat) (ldc : Int) (hbnd : (nN : Int) ≤ ldc)
    (g : ℚ → ℚ) (c : Buf) :
    ∀ i j : Nat, j ≤ i → i < nN →
      iterN nN (fun j cc =>
        iterN (nN - j) (fun t cc2 =>
          upd cc2 (((j + t : Nat) : Int) + (j : Int) * ldc)
            (g (cc2 (((j + t : Nat) : Int) + (j : Int) * ldc)))) cc) c
        ((i : Int) + (j : Int) * ldc)
        = g (c ((i : Int) + (j : Int) * ldc)) := by
  intro i j hji hi
  have h := iterN_region_char nN
      (fun j cc =>
        iterN (nN - j) (fun t cc2 =>
          upd cc2 (((j + t : Nat) : Int) + (j : Int) * ldc)
            (g (cc2 (((j + t : Nat) : Int) + (j : Int) * ldc)))) cc)
      (fun j p => ∃ t : Nat, t < nN - j ∧ p = ((j + t : Nat) : Int) + (j : Int) * ldc)
      (fun j p v => g v)
      (by
        intro j hj b p hS
        obtain ⟨t, ht, rfl⟩ := hS
        exact (col_inner_off_char (nN - j) j ((j : Int) * ldc) g b).1 t ht)
      (by
        intro j hj b p hS
        exact (col_inner_off_char (nN - j) j ((j : Int) * ldc) g b).2 p
          (fun t ht he => hS ⟨t, ht, he⟩))
      (by
        intro j1 j2 hj1 hj2 p h1 h2
        obtain ⟨t1, ht1, rfl⟩ := h1
        obtain ⟨t2, ht2, he⟩ := h2
        have := colPos_inj ldc ((j1 + t1 : Nat) : Int) ((j2 + t2 : Nat) : Int) j1 j2
          (by omega) (by omega) (by omega) (by omega) he
        have hjj : (j1 : Int) = (j2 : Int) := this.2
        exact_mod_cast hjj) c
  have hmain := h.1 j ((i : Int) + (j : Int) * ldc) (by omega)
    ⟨i - j, by omega, by
      have : (j + (i - j) : Nat) = i := by omega
      rw [this]⟩
  exact hmain

lemma mgLoop1_sound : ∀ (f : Nat) (s t : MgState), mgLoop1 f s = some t → ¬ mgCond1 t := by
  intro f
  induction f with
  | zero =>
    intro s t h
    by_cases hc : mgCond1 s
    · simp [mgLoop1, if_pos hc] at h
    · simp [mgLoop1, if_neg hc] at h
      subst h
      exact hc
  | succ f ih =>
    intro s t h
    by_cases hc : mgCond1 s
    · rw [mgLoop1, if_pos hc] at h
      exact ih (mgStep1 s) t h
    · rw [mgLoop1, if_neg hc] at h
      cases h
      exact hc

lemma mgLoop1_skip (f : Nat) (s : MgState) (h : ¬ mgCond1 s) : mgLoop1 f s = some s := by
  cases f with
  | zero => simp [mgLoop1, if_neg h]
  | succ f => simp [mgLoop1, if_neg h]

lemma mgLoop2_sound : ∀ (f : Nat) (s t : MgState), mgLoop2 f s = some t → ¬ mgCond2 t := by
  intro f
  induction f with
  | zero =>
    intro s t h
    by_cases hc : mgCond2 s
    · simp [mgLoop2, if_pos hc] at h
    · simp [mgLoop2, if_neg hc] at h
      subst h
      exact hc
  | succ f ih =>
    intro s t h
    by_cases hc : mgCond2 s
    · rw [mgLoop2, if_pos hc] at h
      exact ih (mgStep2 s) t h
    · rw [mgLoop2, if_neg hc] at h
      cases h
      exact hc

lemma mgLoop2_skip (f : Nat) (s : MgState) (h : ¬ mgCond2 s) : mgLoop2 f s = some s := by
  cases f with
  | zero => simp [mgLoop2, if_neg h]
  | succ f => simp [mgLoop2, if_neg h]

lemma mgStep1_spec (s : MgState) :
    (mgStep1 s).dflag = -1 ∧
    (s.dd1 ≤ mgRgamsq →
      (mgStep1 s).dd1 = s.dd1 * mgGamsq ∧ (mgStep1 s).dx1 = s.dx1 / mgGam ∧
      (mgStep1 s).dh11 = (mgNorm s).dh11 / mgGam ∧
      (mgStep1 s).dh12 = (mgNorm s).dh12 / mgGam) ∧
    (¬ s.dd1 ≤ mgRgamsq →
      (mgStep1 s).dd1 = s.dd1 / mgGamsq ∧ (mgStep1 s).dx1 = s.dx1 * mgGam ∧
      (mgStep1 s).dh11 = (mgNorm s).dh11 * mgGam ∧
      (mgStep1 s).dh12 = (mgNorm s).dh12 * mgGam) := by
  have hdd1 : (mgNorm s).dd1 = s.dd1 := by
    unfold mgNorm
    split_ifs <;> rfl
  have hdx1 : (mgNorm s).dx1 = s.dx1 := by
    unfold mgNorm
    split_ifs <;> rfl
  have hfl : (mgNorm s).dflag = -1 := by
    unfold mgNorm
    split_ifs <;> rfl
  unfold mgStep1
  by_cases hc : (mgNorm s).dd1 ≤ mgRgamsq
  · rw [if_pos hc]
    rw [hdd1] at hc
    exact ⟨hfl, fun _ => ⟨by rw [hdd1], by rw [hdx1], rfl, rfl⟩,
      fun hn => absurd hc hn⟩
  · rw [if_neg hc]
    rw [hdd1] at hc
    exact ⟨hfl, fun hy => absurd hy hc,
      fun _ => ⟨by rw [hdd1], by rw [hdx1], rfl, rfl⟩⟩

lemma mgStep2_spec (s : MgState) :
    (mgStep2 s).dflag = -1 ∧
    (|s.dd2| ≤ mgRgamsq →
      (mgStep2 s).dd2 = s.dd2 * mgGamsq ∧
      (mgStep2 s).dh21 = (mgNorm s).dh21 / mgGam ∧
      (mgStep2 s).dh22 = (mgNorm s).dh22 / mgGam) ∧
    (¬ |s.dd2| ≤ mgRgamsq →
      (mgStep2 s).dd2 = s.dd2 / mgGamsq ∧
      (mgStep2 s).dh21 = (mgNorm s).dh21 * mgGam ∧
      (mgStep2 s).dh22 = (mgNorm s).dh22 * mgGam) := by
  have hdd2 : (mgNorm s).dd2 = s.dd2 := by
    unfold mgNorm
    split_ifs <;> rfl
  have hfl : (mgNorm s).dflag = -1 := by
    unfold mgNorm
    split_ifs <;> rfl
  unfold mgStep2
  by_cases hc : |(mgNorm s).dd2| ≤ mgRgamsq
  · rw [if_pos hc]
    rw [hdd2] at hc
    exact ⟨hfl, fun _ => ⟨by rw [hdd2], rfl, rfl⟩, fun hn => absurd hc hn⟩
  · rw [if_neg hc]
    rw [hdd2] at hc
    exact ⟨hfl, fun hy => absurd hy hc, fun _ => ⟨by rw [hdd2], rfl, rfl⟩⟩

lemma runCalls_append (cs : List BlasCall) (c : BlasCall) (st : Store) :
    runCalls (cs ++ [c]) st = applyCall c (runCalls cs st) := by
  simp [runCalls, List.foldl_append]

/-- Constant buffer, used for concrete instances. -/
def bufConst (q : ℚ) : Buf := fun _ => q

/-- C1: the claim that dgemv leaves y holding alpha * op(A) * x plus
beta times the original y in every trans mode is right about the
documented contract, but the no-transpose code path applies the beta
scaling after the accumulation, so the accumulated product is itself
scaled (and destroyed outright when beta = 0).  At trans = N,
m = n = lda = 1, alpha = 1, A = [2], x = [3], incx = 1, beta = 0,
y = [7], incy = 1 the kernel leaves y[0] = 0 while the documented
result alpha * A * x + beta * y is 6. -/
theorem dgemv_notrans_beta_order_bug :
    dgemv 'N' 1 1 1 (bufConst 2) 1 (bufConst 3) 1 0 (bufConst 7) 1 0 = 0 ∧
    (1 : ℚ) * 2 * 3 + 0 * 7 ≠ 0 := by
  constructor
  · decide
  · norm_num

/-- C2: quick-return and alpha-equals-zero behaviour of dgemm and
dsyrk.  When m = 0 or n = 0 (n = 0 for dsyrk), or when alpha = 0 or
k = 0 together with beta = 1, the routine hands back C unchanged; when
alpha = 0 with beta not 1, every entry of the designated region of C
(the full m-by-n block for dgemm, the selected triangle for dsyrk,
under the documented leading-dimension contract) is multiplied by
beta, and is exactly zero when beta = 0. -/
theorem dgemm_dsyrk_degenerate_spec
    (transa transb uplo : Char) (m n k : Int) (alpha : ℚ) (a : Buf) (lda : Int)
    (b : Buf) (ldb : Int) (beta : ℚ) (c : Buf) (ldc : Int) :
    ((m = 0 ∨ n = 0) → dgemm transa transb m n k alpha a lda b ldb beta c ldc = c) ∧
    ((alpha = 0 ∨ k = 0) ∧ beta = 1 →
      dgemm transa transb m n k alpha a lda b ldb beta c ldc = c) ∧
    (alpha = 0 → beta ≠ 1 → m ≤ ldc →
      ∀ i j : Nat, (i : Int) < m → (j : Int) < n →
        dgemm transa transb m n k alpha a lda b ldb beta c ldc
            ((i : Int) + (j : Int) * ldc)
          = beta * c ((i : Int) + (j : Int) * ldc)) ∧
    (alpha = 0 → beta = 0 → m ≤ ldc →
      ∀ i j : Nat, (i : Int) < m → (j : Int) < n →
        dgemm transa transb m n k alpha a lda b ldb beta c ldc
            ((i : Int) + (j : Int) * ldc) = 0) ∧
    (n = 0 → dsyrk uplo transa n k alpha a lda beta c ldc = c) ∧
    ((alpha = 0 ∨ k = 0) ∧ beta = 1 → dsyrk uplo transa n k alpha a lda beta c ldc = c) ∧
    (alpha = 0 → beta ≠ 1 → n ≤ ldc →
      ∀ i j : Nat, (j : Int) < n →
        (isUpper uplo = true → i ≤ j →
          dsyrk uplo transa n k alpha a lda beta c ldc ((i : Int) + (j : Int) * ldc)
            = beta * c ((i : Int) + (j : Int) * ldc)) ∧
        (isUpper uplo = false → j ≤ i → (i : Int) < n →
          dsyrk uplo transa n k alpha a lda beta c ldc ((i : Int) + (j : Int) * ldc)
            = beta * c ((i : Int) + (j : Int) * ldc))) ∧
    (alpha = 0 → beta = 0 → n ≤ ldc →
      ∀ i j : Nat, (j : Int) < n →
        (isUpper uplo = true → i ≤ j →
          dsyrk uplo transa n k alpha a lda beta c ldc ((i : Int) + (j : Int) * ldc) = 0) ∧
        (isUpper uplo = false → j ≤ i → (i : Int) < n →
          dsyrk uplo transa n k alpha a lda beta c ldc ((i : Int) + (j : Int) * ldc) = 0)) := by
  have hg1 : (m = 0 ∨ n = 0) → dgemm transa transb m n k alpha a lda b ldb beta c ldc = c := by
    intro h
    simp only [dgemm]
    rw [if_pos (by tauto)]
  have hg2 : (alpha = 0 ∨ k = 0) ∧ beta = 1 →
      dgemm transa transb m n k alpha a lda b ldb beta c ldc = c := by
    intro h
    simp only [dgemm]
    rw [if_pos (by tauto)]
  have hg3 : alpha = 0 → beta ≠ 1 → m ≤ ldc →
      ∀ i j : Nat, (i : Int) < m → (j : Int) < n →
        dgemm transa transb m n k alpha a lda b ldb beta c ldc
          ((i : Int) + (j : Int) * ldc) = beta * c ((i : Int) + (j : Int) * ldc) := by
    intro ha hb hl i j hi hj
    have hm0 : ¬ m = 0 := by omega
    have hn0 : ¬ n = 0 := by omega
    have hq : ¬ (m = 0 ∨ n = 0 ∨ ((alpha = 0 ∨ k = 0) ∧ beta = 1)) := by tauto
    simp only [dgemm]
    rw [if_neg hq, if_pos ha]
    by_cases hb0 : beta = 0
    · rw [if_pos hb0, hb0, zero_mul]
      exact rect_scale_char m.toNat n.toNat ldc (by omega) (fun v => 0) c i j
        (by omega) (by omega)
    · rw [if_neg hb0]
      exact rect_scale_char m.toNat n.toNat ldc (by omega) (fun v => beta * v) c i j
        (by omega) (by omega)
  have hg4 : alpha = 0 → beta = 0 → m ≤ ldc →
      ∀ i j : Nat, (i : Int) < m → (j : Int) < n →
        dgemm transa transb m n k alpha a lda b ldb beta c ldc
          ((i : Int) + (j : Int) * ldc) = 0 := by
    intro ha hb hl i j hi hj
    subst hb
    have := hg3 ha (by norm_num) hl i j hi hj
    rw [zero_mul] at this
    exact this
  have hs1 : n = 0 → dsyrk uplo transa n k alpha a lda beta c ldc = c := by
    intro h
    simp only [dsyrk]
    rw [if_pos (by tauto)]
  have hs2 : (alpha = 0 ∨ k = 0) ∧ beta = 1 →
      dsyrk uplo transa n k alpha a lda beta c ldc = c := by
    intro h
    simp only [dsyrk]
    rw [if_pos (by tauto)]
  have hs3 : alpha = 0 → beta ≠ 1 → n ≤ ldc →
      ∀ i j : Nat, (j : Int) < n →
        (isUpper uplo = true → i ≤ j →
          dsyrk uplo transa n k alpha a lda beta c ldc ((i : Int) + (j : Int) * ldc)
            = beta * c ((i : Int) + (j : Int) * ldc)) ∧
        (isUpper uplo = false → j ≤ i → (i : Int) < n →
          dsyrk uplo transa n k alpha a lda beta c ldc ((i : Int) + (j : Int) * ldc)
            = beta * c ((i : Int) + (j : Int) * ldc)) := by
    intro ha hb hl i j hj
    have hq : ¬ (n = 0 ∨ ((alpha = 0 ∨ k = 0) ∧ beta = 1)) := by
      rintro (h | h)
      · omega
      · exact hb h.2
    constructor
    · intro hup hij
      simp only [dsyrk]
      rw [if_neg hq, if_pos ha, if_pos hup]
      by_cases hb0 : beta = 0
      · rw [if_pos hb0, hb0, zero_mul]
        exact tri_upper_scale_char n.toNat ldc (by omega) (fun v => 0) c i j hij (by omega)
      · rw [if_neg hb0]
        exact tri_upper_scale_char n.toNat ldc (by omega) (fun v => beta * v) c i j hij
          (by omega)
    · intro hup hij hi
      simp only [dsyrk]
      rw [if_neg hq, if_pos ha, if_neg (by simp [hup])]
      by_cases hb0 : beta = 0
      · rw [if_pos hb0, hb0, zero_mul]
        exact tri_lower_scale_char n.toNat ldc (by omega) (fun v => 0) c i j hij (by omega)
      · rw [if_neg hb0]
        exact tri_lower_scale_char n.toNat ldc (by omega) (fun v => beta * v) c i j hij
          (by omega)
  have hs4 : alpha = 0 → beta = 0 → n ≤ ldc →
      ∀ i j : Nat, (j : Int) < n →
        (isUpper uplo = true → i ≤ j →
          dsyrk uplo transa n k alpha a lda beta c ldc ((i : Int) + (j : Int) * ldc) = 0) ∧
        (isUpper uplo = false → j ≤ i → (i : Int) < n →
          dsyrk uplo transa n k alpha a lda beta c ldc ((i : Int) + (j : Int) * ldc) = 0) := by
    intro ha hb hl i j hj
    subst hb
    have h3 := hs3 ha (by norm_num) hl i j hj
    constructor
    · intro hup hij
      have := h3.1 hup hij
      rw [zero_mul] at this
      exact this
    · intro hup hij hi
      have := h3.2 hup hij hi
      rw [zero_mul] at this
      exact this
  exact ⟨hg1, hg2, hg3, hg4, hs1, hs2, hs3, hs4⟩

/-- C3 counterexample: the rgamsq threshold of drotmg is the decimal
literal 5.9604645e-8 of the source, which is not the exact value
1 / gamsq = 2 to the power -24 asserted by the claim. -/
theorem mgRgamsq_not_exact : mgRgamsq ≠ 1 / mgGamsq := by
  norm_num [mgRgamsq, mgGamsq]

/-- C3 (amended): the drotmg rescaling machinery uses gam = 4096 and
gamsq = gam squared; rgamsq is the literal 5.9604645e-8, an inexact
stand-in for 1 / gamsq.  Whenever a rescaling loop finishes within its
fuel, the scale factor it guards (dd1, respectively the absolute value
of dd2) lies strictly between rgamsq and gamsq; each iteration sets
the flag to -1 and moves dd1 or dd2 by a factor gamsq while moving dx1
and the corresponding H coefficients by a factor gam; and a scale
factor already inside the band leaves the state, and hence the flag,
untouched. -/
theorem drotmg_rescale_spec :
    (mgGam = 4096 ∧ mgGamsq = mgGam * mgGam) ∧
    (∀ (f : Nat) (s t : MgState), mgLoop1 f s = some t →
      mgRgamsq < t.dd1 ∧ t.dd1 < mgGamsq) ∧
    (∀ (f : Nat) (s t : MgState), mgLoop2 f s = some t →
      mgRgamsq < |t.dd2| ∧ |t.dd2| < mgGamsq) ∧
    (∀ s : MgState, (mgStep1 s).dflag = -1 ∧ (mgStep2 s).dflag = -1) ∧
    (∀ s : MgState, s.dd1 ≤ mgRgamsq →
      (mgStep1 s).dd1 = s.dd1 * mgGamsq ∧ (mgStep1 s).dx1 = s.dx1 / mgGam ∧
      (mgStep1 s).dh11 = (mgNorm s).dh11 / mgGam ∧
      (mgStep1 s).dh12 = (mgNorm s).dh12 / mgGam) ∧
    (∀ s : MgState, ¬ s.dd1 ≤ mgRgamsq →
      (mgStep1 s).dd1 = s.dd1 / mgGamsq ∧ (mgStep1 s).dx1 = s.dx1 * mgGam ∧
      (mgStep1 s).dh11 = (mgNorm s).dh11 * mgGam ∧
      (mgStep1 s).dh12 = (mgNorm s).dh12 * mgGam) ∧
    (∀ s : MgState, |s.dd2| ≤ mgRgamsq →
      (mgStep2 s).dd2 = s.dd2 * mgGamsq ∧
      (mgStep2 s).dh21 = (mgNorm s).dh21 / mgGam ∧
      (mgStep2 s).dh22 = (mgNorm s).dh22 / mgGam) ∧
    (∀ s : MgState, ¬ |s.dd2| ≤ mgRgamsq →
      (mgStep2 s).dd2 = s.dd2 / mgGamsq ∧
      (mgStep2 s).dh21 = (mgNorm s).dh21 * mgGam ∧
      (mgStep2 s).dh22 = (mgNorm s).dh22 * mgGam) ∧
    (∀ (f : Nat) (s : MgState), ¬ mgCond1 s → mgLoop1 f s = some s) ∧
    (∀ (f : Nat) (s : MgState), ¬ mgCond2 s → mgLoop2 f s = some s) := by
  refine ⟨⟨by norm_num [mgGam], by norm_num [mgGamsq, mgGam]⟩, ?_, ?_, ?_, ?_, ?_, ?_, ?_,
    mgLoop1_skip, mgLoop2_skip⟩
  · intro f s t h
    have := mgLoop1_sound f s t h
    unfold mgCond1 at this
    push_neg at this
    exact this
  · intro f s t h
    have := mgLoop2_sound f s t h
    unfold mgCond2 at this
    push_neg at this
    exact this
  · exact fun s => ⟨(mgStep1_spec s).1, (mgStep2_spec s).1⟩
  · exact fun s h => (mgStep1_spec s).2.1 h
  · exact fun s h => (mgStep1_spec s).2.2 h
  · exact fun s h => (mgStep2_spec s).2.1 h
  · exact fun s h => (mgStep2_spec s).2.2 h

/-- State with a tiny dd1 and in-band dd2, entering the first
rescaling loop once. -/
def mgS1 : MgState := ⟨0, 0, 0, 0, 0, 1 / 2 ^ (30 : ℕ), 1, 1⟩

/-- State with in-band dd1 and a huge dd2, entering the second
rescaling loop once. -/
def mgS2 : MgState := ⟨1, 1, 0, 0, 1, 1, 2 ^ (30 : ℕ), 1⟩

/-- State with a tiny dd2, for the upward branch of the second loop. -/
def mgS3 : MgState := ⟨0, 0, 0, 0, 0, 1, 1 / 2 ^ (30 : ℕ), 1⟩

/-- Concrete instances of the drotmg rescaling theorem: one pass of
each loop at states that trip each branch, and the skip cases. -/
theorem drotmg_rescale_spec_witness :
    (mgRgamsq < (mgStep1 mgS1).dd1 ∧ (mgStep1 mgS1).dd1 < mgGamsq) ∧
    (mgRgamsq < |(mgStep2 mgS2).dd2| ∧ |(mgStep2 mgS2).dd2| < mgGamsq) ∧
    ((mgStep1 mgS1).dd1 = mgS1.dd1 * mgGamsq ∧ (mgStep1 mgS1).dx1 = mgS1.dx1 / mgGam ∧
      (mgStep1 mgS1).dh11 = (mgNorm mgS1).dh11 / mgGam ∧
      (mgStep1 mgS1).dh12 = (mgNorm mgS1).dh12 / mgGam) ∧
    ((mgStep1 mgS2).dd1 = mgS2.dd1 / mgGamsq ∧ (mgStep1 mgS2).dx1 = mgS2.dx1 * mgGam ∧
      (mgStep1 mgS2).dh11 = (mgNorm mgS2).dh11 * mgGam ∧
      (mgStep1 mgS2).dh12 = (mgNorm mgS2).dh12 * mgGam) ∧
    ((mgStep2 mgS3).dd2 = mgS3.dd2 * mgGamsq ∧
      (mgStep2 mgS3).dh21 = (mgNorm mgS3).dh21 / mgGam ∧
      (mgStep2 mgS3).dh22 = (mgNorm mgS3).dh22 / mgGam) ∧
    ((mgStep2 mgS2).dd2 = mgS2.dd2 / mgGamsq ∧
      (mgStep2 mgS2).dh21 = (mgNorm mgS2).dh21 * mgGam ∧
      (mgStep2 mgS2).dh22 = (mgNorm mgS2).dh22 * mgGam) ∧
    mgLoop1 1 mgS2 = some mgS2 ∧ mgLoop2 1 mgS1 = some mgS1 := by
  have hc1 : mgCond1 mgS1 := Or.inl (by norm_num [mgS1, mgRgamsq])
  have hs1 : mgStep1 mgS1
      = ⟨-1, 1 / 4096, 0, 0, 1, 1 / 2 ^ (30 : ℕ) * 16777216, 1, 1 / 4096⟩ := by
    norm_num [mgStep1, mgNorm, mgS1, mgRgamsq, mgGamsq, mgGam]
  have hc1s : ¬ mgCond1 (mgStep1 mgS1) := by
    rw [hs1]
    norm_num [mgCond1, mgRgamsq, mgGamsq]
  have hl1 : mgLoop1 1 mgS1 = some (mgStep1 mgS1) := by
    show mgLoop1 (0 + 1) mgS1 = some (mgStep1 mgS1)
    rw [mgLoop1, if_pos hc1]
    exact mgLoop1_skip 0 (mgStep1 mgS1) hc1s
  have hc2 : mgCond2 mgS2 := Or.inr (by norm_num [mgS2, mgGamsq])
  have hs2 : mgStep2 mgS2
      = ⟨-1, 1, 1, -4096, 4096, 1, 2 ^ (30 : ℕ) / 16777216, 1⟩ := by
    norm_num [mgStep2, mgNorm, mgS2, mgRgamsq, mgGamsq, mgGam]
  have hc2s : ¬ mgCond2 (mgStep2 mgS2) := by
    rw [hs2]
    norm_num [mgCond2, mgRgamsq, mgGamsq, abs_of_nonneg]
  have hl2 : mgLoop2 1 mgS2 = some (mgStep2 mgS2) := by
    show mgLoop2 (0 + 1) mgS2 = some (mgStep2 mgS2)
    rw [mgLoop2, if_pos hc2]
    exact mgLoop2_skip 0 (mgStep2 mgS2) hc2s
  refine ⟨?_, ?_, ?_, ?_, ?_, ?_, ?_, ?_⟩
  · exact drotmg_rescale_spec.2.1 1 mgS1 (mgStep1 mgS1) hl1
  · exact drotmg_rescale_spec.2.2.1 1 mgS2 (mgStep2 mgS2) hl2
  · exact drotmg_rescale_spec.2.2.2.2.1 mgS1 (by norm_num [mgS1, mgRgamsq])
  · exact drotmg_rescale_spec.2.2.2.2.2.1 mgS2 (by norm_num [mgS2, mgRgamsq])
  · exact drotmg_rescale_spec.2.2.2.2.2.2.1 mgS3 (by norm_num [mgS3, mgRgamsq, abs_le])
  · exact drotmg_rescale_spec.2.2.2.2.2.2.2.1 mgS2 (by norm_num [mgS2, mgRgamsq])
  · exact drotmg_rescale_spec.2.2.2.2.2.2.2.2.1 1 mgS2
      (by norm_num [mgCond1, mgS2, mgRgamsq, mgGamsq])
  · exact drotmg_rescale_spec.2.2.2.2.2.2.2.2.2 1 mgS1
      (by norm_num [mgCond2, mgS1, mgRgamsq, mgGamsq])

/-- C10: with non-negative dd1 and a vanishing product dd2 * dy1, the
drotmg no-op path stores the flag -2 into the parameter array and
leaves dd1, dd2, dx1 and the four coefficient slots untouched. -/
theorem drotmg_noop_frame (fuel : Nat) (dd1 dd2 dx1 dy1 : ℚ) (param : Fin 5 → ℚ)
    (h1 : 0 ≤ dd1) (h2 : dd2 * dy1 = 0) :
    drotmg fuel dd1 dd2 dx1 dy1 param
      = some ⟨dd1, dd2, dx1, Function.update param 0 (-2)⟩ := by
  simp only [drotmg]
  rw [if_neg (not_lt.mpr h1), if_pos h2]

/-- Concrete no-op instance of drotmg: dd2 = 0 with nonzero dy1. -/
theorem drotmg_noop_frame_witness :
    drotmg 0 1 0 5 7 (fun _ => 9)
      = some ⟨1, 0, 5, Function.update (fun _ => 9) 0 (-2)⟩ :=
  drotmg_noop_frame 0 1 0 5 7 (fun _ => 9) (by norm_num) (by norm_num)

/-- C4: ddot returns exactly zero for non-positive n; dasum returns
exactly zero for non-positive n or non-positive increment; and for
positive n with negative incx the asymmetry holds: dasum is zero while
ddot computes the strided sum, starting at offset (-n + 1) * incx,
which is the last logical element, and walking backward. -/
theorem ddot_dasum_degenerate_spec :
    (∀ (n : Int) (x : Buf) (incx : Int) (y : Buf) (incy : Int),
      n ≤ 0 → ddot n x incx y incy = 0) ∧
    (∀ (n : Int) (x : Buf) (incx : Int), n ≤ 0 ∨ incx ≤ 0 → dasum n x incx = 0) ∧
    (∀ (n : Int) (x : Buf) (incx : Int) (y : Buf) (incy : Int), 0 < n → incx < 0 →
      dasum n x incx = 0 ∧
      ddot n x incx y incy
        = ∑ i in Finset.range n.toNat,
            x ((-n + 1) * incx + (i : Int) * incx) * y (vecStart n incy + (i : Int) * incy)) := by
  refine ⟨?_, ?_, ?_⟩
  · intro n x incx y incy h
    simp [ddot, if_pos h]
  · intro n x incx h
    simp only [dasum]
    rw [if_pos h]
  · intro n x incx y incy hn hx
    constructor
    · simp only [dasum]
      rw [if_pos (Or.inr (le_of_lt hx))]
    · rw [ddot_gen n x incx y incy hn (fun hc => by omega)]
      have hvs : vecStart n incx = (-n + 1) * incx := if_pos hx
      rw [hvs]

/-- Concrete instances of the ddot and dasum degenerate behaviour. -/
theorem ddot_dasum_degenerate_spec_witness :
    ddot (-1) (bufConst 5) 1 (bufConst 2) 1 = 0 ∧
    dasum 3 (bufConst 5) (-1) = 0 ∧
    (dasum 2 (bufConst 5) (-1) = 0 ∧
      ddot 2 (bufConst 5) (-1) (bufConst 2) 1
        = ∑ i in Finset.range (2 : Int).toNat,
            bufConst 5 ((-2 + 1) * -1 + (i : Int) * -1)
              * bufConst 2 (vecStart 2 1 + (i : Int) * 1)) := by
  refine ⟨?_, ?_, ?_⟩
  · exact ddot_dasum_degenerate_spec.1 (-1) (bufConst 5) 1 (bufConst 2) 1 (by norm_num)
  · exact ddot_dasum_degenerate_spec.2.1 3 (bufConst 5) (-1) (Or.inr (by norm_num))
  · exact ddot_dasum_degenerate_spec.2.2 2 (bufConst 5) (-1) (bufConst 2) 1
      (by norm_num) (by norm_num)

/-- C5: drotg special cases.  With b = 0 the outputs are r = a (the
sign of a is not flipped), z = 0, c = 1, s = 0; with a = 0 and b
nonzero the outputs are r = b, z = 1, c = 0, s = 1, matching the rule
that z is 1 when c = 0.  The result holds for every square-root map,
showing the special branches never consult it. -/
theorem drotg_special_cases (sq : ℚ → ℚ) (a b : ℚ) :
    (b = 0 → drotg a b sq = (a, 0, 1, 0)) ∧
    (b ≠ 0 → a = 0 → drotg a b sq = (b, 1, 0, 1)) := by
  constructor
  · intro hb
    subst hb
    simp [drotg]
  · intro hb ha
    subst ha
    simp [drotg, abs_eq_zero, hb]

/-- Concrete instances of the drotg special cases. -/
theorem drotg_special_cases_witness :
    drotg 3 0 id = (3, 0, 1, 0) ∧ drotg 0 2 id = (2, 1, 0, 1) :=
  ⟨(drotg_special_cases id 3 0).1 rfl,
   (drotg_special_cases id 0 2).2 (by norm_num) rfl⟩

/-- Concrete instances of the dgemm and dsyrk degenerate behaviour:
a quick return at m = 0, a beta-scaled block entry of dgemm, and a
beta-scaled upper-triangle entry of dsyrk. -/
theorem dgemm_dsyrk_degenerate_spec_witness :
    dgemm 'N' 'N' 0 2 1 1 (bufConst 1) 2 (bufConst 1) 2 2 (bufConst 3) 2 = bufConst 3 ∧
    dgemm 'N' 'N' 2 2 1 0 (bufConst 1) 2 (bufConst 1) 2 2 (bufConst 3) 2
        (((0 : Nat) : Int) + ((1 : Nat) : Int) * 2)
      = 2 * bufConst 3 (((0 : Nat) : Int) + ((1 : Nat) : Int) * 2) ∧
    dsyrk 'U' 'N' 2 1 0 (bufConst 1) 2 2 (bufConst 3) 2
        (((0 : Nat) : Int) + ((1 : Nat) : Int) * 2)
      = 2 * bufConst 3 (((0 : Nat) : Int) + ((1 : Nat) : Int) * 2) := by
  refine ⟨?_, ?_, ?_⟩
  · exact (dgemm_dsyrk_degenerate_spec 'N' 'N' 'U' 0 2 1 1 (bufConst 1) 2 (bufConst 1) 2 2
      (bufConst 3) 2).1 (Or.inl rfl)
  · exact (dgemm_dsyrk_degenerate_spec 'N' 'N' 'U' 2 2 1 0 (bufConst 1) 2 (bufConst 1) 2 2
      (bufConst 3) 2).2.2.1 rfl (by norm_num) (by norm_num) 0 1 (by norm_num) (by norm_num)
  · exact ((dgemm_dsyrk_degenerate_spec 'N' 'N' 'U' 2 2 1 0 (bufConst 1) 2 (bufConst 1) 2 2
      (bufConst 3) 2).2.2.2.2.2.2.1 rfl (by norm_num) (by norm_num) 0 1
      (by norm_num)).1 rfl (by norm_num)

/-- C6 counterexample: with incy = 0 every logical element of y shares
buffer slot zero, daxpy accumulates into it twice, and the elementwise
description of the claim fails at logical index 0: the kernel leaves
the slot holding 2 while alpha times x plus the original y there is 1. -/
theorem daxpy_incy_zero_cex :
    daxpy 2 1 (bufConst 1) 1 (bufConst 0) 0 (vecStart 2 0 + (0 : Int) * 0) = 2 ∧
    bufConst 0 (vecStart 2 0 + (0 : Int) * 0)
      + 1 * bufConst 1 (vecStart 2 1 + (0 : Int) * 1) = 1 := by
  constructor
  · norm_num [daxpy, daxpyGen, vecStart, iterN, upd_apply, bufConst]
  · norm_num [vecStart, bufConst]

/-- C6 (amended): for every n, alpha, x, y, incx and every nonzero
incy, daxpy leaves y holding alpha times x plus y at each strided
position, touches no position outside the stride, and hands y back
entirely untouched when n is non-positive or alpha is zero. -/
theorem daxpy_strided_spec (n : Int) (alpha : ℚ) (x y : Buf) (incx incy : Int)
    (hincy : incy ≠ 0) :
    (∀ i : Nat, (i : Int) < n →
      daxpy n alpha x incx y incy (vecStart n incy + (i : Int) * incy)
        = y (vecStart n incy + (i : Int) * incy)
          + alpha * x (vecStart n incx + (i : Int) * incx)) ∧
    (∀ p : Int, (∀ i : Nat, (i : Int) < n → p ≠ vecStart n incy + (i : Int) * incy) →
      daxpy n alpha x incx y incy p = y p) ∧
    ((n ≤ 0 ∨ alpha = 0) → daxpy n alpha x incx y incy = y) := by
  by_cases hn : n ≤ 0
  · have he : daxpy n alpha x incx y incy = y := by simp [daxpy, hn]
    refine ⟨?_, ?_, fun _ => he⟩
    · intro i hi
      exfalso
      omega
    · intro p _
      rw [he]
  · by_cases ha : alpha = 0
    · have he : daxpy n alpha x incx y incy = y := by simp [daxpy, hn, ha]
      refine ⟨?_, ?_, fun _ => he⟩
      · intro i hi
        rw [he, ha]
        ring
      · intro p _
        rw [he]
    · refine ⟨?_, ?_, fun hcon => (hcon.elim (fun h => absurd h hn) (fun h => absurd h ha))⟩
      · intro i hi
        by_cases hu : incx = 1 ∧ incy = 1
        · obtain ⟨h1, h2⟩ := hu
          subst h1
          subst h2
          have hv : vecStart n 1 = 0 := by simp [vecStart]
          have he : daxpy n alpha x 1 y 1 = daxpyUnit n alpha x y := by
            simp [daxpy, hn, ha]
          rw [he, hv]
          simpa using (daxpyUnit_char n alpha x y (by omega)).1 i (by omega)
        · have he : daxpy n alpha x incx y incy = daxpyGen n alpha x incx y incy := by
            simp [daxpy, hn, ha, hu]
          rw [he]
          exact (daxpyGen_char n alpha x y incx incy hincy).1 i (by omega)
      · intro p hp
        by_cases hu : incx = 1 ∧ incy = 1
        · obtain ⟨h1, h2⟩ := hu
          subst h1
          subst h2
          have hv : vecStart n 1 = 0 := by simp [vecStart]
          have he : daxpy n alpha x 1 y 1 = daxpyUnit n alpha x y := by
            simp [daxpy, hn, ha]
          rw [he]
          refine (daxpyUnit_char n alpha x y (by omega)).2 p (fun i hi => ?_)
          have := hp i (by omega)
          rw [hv] at this
          simpa using this
        · have he : daxpy n alpha x incx y incy = daxpyGen n alpha x incx y incy := by
            simp [daxpy, hn, ha, hu]
          rw [he]
          exact (daxpyGen_char n alpha x y incx incy hincy).2 p (fun i hi => hp i (by omega))

/-- Concrete instance of the daxpy characterisation: n = 5 with unit
strides exercises both the clean-up loop and an unrolled block. -/
theorem daxpy_strided_spec_witness :
    daxpy 5 2 (bufConst 1) 1 (bufConst 3) 1 (vecStart 5 1 + ((2 : Nat) : Int) * 1)
      = bufConst 3 (vecStart 5 1 + ((2 : Nat) : Int) * 1)
        + 2 * bufConst 1 (vecStart 5 1 + ((2 : Nat) : Int) * 1) :=
  (daxpy_strided_spec 5 2 (bufConst 1) (bufConst 3) 1 1 (by norm_num)).1 2 (by norm_num)

lemma drotLoop_inverse (n : Nat) (posx posy : Nat → Int)
    (hx : ∀ i j, posx i = posx j → i = j) (hy : ∀ i j, posy i = posy j → i = j)
    (c s : ℚ) (hcs : c ^ 2 + s ^ 2 = 1) (x y : Buf) :
    drotLoop n posx posy c (-s)
      (drotLoop n posx posy c s x y).1 (drotLoop n posx posy c s x y).2 = (x, y) := by
  have h1 := drotLoop_char n posx posy hx hy c s x y
  have h2 := drotLoop_char n posx posy hx hy c (-s)
      (drotLoop n posx posy c s x y).1 (drotLoop n posx posy c s x y).2
  have e1 : (drotLoop n posx posy c (-s)
      (drotLoop n posx posy c s x y).1 (drotLoop n posx posy c s x y).2).1 = x := by
    funext p
    by_cases hpx : ∃ i, i < n ∧ posx i = p
    · obtain ⟨i, hi, rfl⟩ := hpx
      rw [(h2.1 i hi).1, (h1.1 i hi).1, (h1.1 i hi).2]
      linear_combination x (posx i) * hcs
    · push_neg at hpx
      rw [h2.2.1 p (fun i hi => hpx i hi)]
      exact h1.2.1 p (fun i hi => hpx i hi)
  have e2 : (drotLoop n posx posy c (-s)
      (drotLoop n posx posy c s x y).1 (drotLoop n posx posy c s x y).2).2 = y := by
    funext p
    by_cases hpy : ∃ i, i < n ∧ posy i = p
    · obtain ⟨i, hi, rfl⟩ := hpy
      rw [(h2.1 i hi).2, (h1.1 i hi).1, (h1.1 i hi).2]
      linear_combination y (posy i) * hcs
    · push_neg at hpy
      rw [h2.2.2 p (fun i hi => hpy i hi)]
      exact h1.2.2 p (fun i hi => hpy i hi)
  exact Prod.ext e1 e2

/-- C7 counterexample: with c = 1, s = 1 (not a rotation, since the
squares sum to 2) applying drot and then drot with the negated s does
not restore x: starting from x = 1, y = 0 the first element of x ends
at 2. -/
theorem drot_inverse_cex :
    (drot 1 (drot 1 (bufConst 1) 1 (bufConst 0) 1 1 1).1 1
      (drot 1 (bufConst 1) 1 (bufConst 0) 1 1 1).2 1 1 (-1)).1 0 = 2 ∧
    bufConst 1 (0 : Int) = 1 := by
  constructor
  · norm_num [drot, drotLoop, iterN, upd_apply, bufConst]
  · norm_num [bufConst]

/-- C7 (amended): for every n, x, y, nonzero strides incx and incy,
and scalars c, s with c squared plus s squared equal to one, applying
drot with (c, s) and then with (c, -s) restores x and y exactly. -/
theorem drot_inverse_rotation (n : Int) (x y : Buf) (incx incy : Int) (c s : ℚ)
    (hincx : incx ≠ 0) (hincy : incy ≠ 0) (hcs : c ^ 2 + s ^ 2 = 1) :
    drot n (drot n x incx y incy c s).1 incx (drot n x incx y incy c s).2 incy c (-s)
      = (x, y) := by
  by_cases hn : n ≤ 0
  · simp [drot, hn]
  · by_cases hu : incx = 1 ∧ incy = 1
    · obtain ⟨h1, h2⟩ := hu
      subst h1
      subst h2
      have he : ∀ (cc ss : ℚ) (xx yy : Buf), drot n xx 1 yy 1 cc ss
          = drotLoop n.toNat (fun i => (i : Int)) (fun i => (i : Int)) cc ss xx yy := by
        intro cc ss xx yy
        simp [drot, hn]
      simp only [he]
      exact drotLoop_inverse n.toNat _ _ (fun i j h => by exact_mod_cast h)
        (fun i j h => by exact_mod_cast h) c s hcs x y
    · have he : ∀ (cc ss : ℚ) (xx yy : Buf), drot n xx incx yy incy cc ss
          = drotLoop n.toNat (fun i => vecStart n incx + (i : Int) * incx)
              (fun i => vecStart n incy + (i : Int) * incy) cc ss xx yy := by
        intro cc ss xx yy
        simp [drot, hn, hu]
      simp only [he]
      exact drotLoop_inverse n.toNat _ _
        (fun i j h => stride_pos_inj (vecStart n incx) incx hincx i j h)
        (fun i j h => stride_pos_inj (vecStart n incy) incy hincy i j h) c s hcs x y

/-- Concrete instance of the drot inverse property with the rational
rotation c = 3/5, s = 4/5. -/
theorem drot_inverse_rotation_witness :
    drot 2 (drot 2 (bufConst 1) 1 (bufConst 2) 1 (3 / 5) (4 / 5)).1 1
      (drot 2 (bufConst 1) 1 (bufConst 2) 1 (3 / 5) (4 / 5)).2 1 (3 / 5) (-(4 / 5))
      = (bufConst 1, bufConst 2) :=
  drot_inverse_rotation 2 (bufConst 1) (bufConst 2) 1 1 (3 / 5) (4 / 5)
    (by norm_num) (by norm_num) (by norm_num)

/-- C8: the semantics of a call sequence is a pure fold of per-call
functions over the caller-owned store, so the effect and the returned
scalar of a call depend only on the store contents at call time.  Two
histories that reach the same store contents give any further call the
same output buffers and the same return value, whatever calls happened
in between. -/
theorem routine_statelessness (pre1 pre2 : List BlasCall) (c : BlasCall) (s1 s2 : Store)
    (h : runCalls pre1 s1 = runCalls pre2 s2) :
    runCalls (pre1 ++ [c]) s1 = runCalls (pre2 ++ [c]) s2 ∧
    callValue c (runCalls pre1 s1) = callValue c (runCalls pre2 s2) := by
  refine ⟨?_, by rw [h]⟩
  rw [runCalls_append, runCalls_append, h]

/-- Concrete instance of statelessness: a dot call in between does not
change what a later gemm call does. -/
theorem routine_statelessness_witness :
    runCalls ([BlasCall.dot 1 0 1 1 1] ++ [BlasCall.gemm 'N' 'N' 1 1 1 1 0 1 1 1 1 2 1])
        (fun _ => bufConst 0)
      = runCalls ([] ++ [BlasCall.gemm 'N' 'N' 1 1 1 1 0 1 1 1 1 2 1])
        (fun _ => bufConst 0) ∧
    callValue (BlasCall.gemm 'N' 'N' 1 1 1 1 0 1 1 1 1 2 1)
        (runCalls [BlasCall.dot 1 0 1 1 1] (fun _ => bufConst 0))
      = callValue (BlasCall.gemm 'N' 'N' 1 1 1 1 0 1 1 1 1 2 1)
        (runCalls [] (fun _ => bufConst 0)) :=
  routine_statelessness [BlasCall.dot 1 0 1 1 1] [] (BlasCall.gemm 'N' 'N' 1 1 1 1 0 1 1 1 1 2 1)
    (fun _ => bufConst 0) (fun _ => bufConst 0) rfl

/-- C9: the public dasum wrapper rejects every negative n with an
error before anything else, returns exactly zero without touching the
buffer when n = 0 or the increment is non-positive, and rejects an
undersized array when n and incx are positive. -/
theorem dasumTs_validation_spec (n : Int) (x : List ℚ) (incx : Int) :
    (n < 0 → dasumTs n x incx = Except.error "n must be positive") ∧
    (0 ≤ n → (n = 0 ∨ incx ≤ 0) → dasumTs n x incx = Except.ok 0) ∧
    (0 < n → 0 < incx → (x.length : Int) < 1 + (n - 1) * incx →
      dasumTs n x incx = Except.error "x array too small") := by
  refine ⟨?_, ?_, ?_⟩
  · intro h
    simp only [dasumTs]
    rw [if_pos h]
  · intro h0 hor
    simp only [dasumTs]
    rw [if_neg (by omega), if_pos hor]
  · intro h1 h2 h3
    simp only [dasumTs]
    rw [if_neg (by omega), if_neg (by omega), if_pos (by rw [abs_of_pos h2]; exact h3)]

/-- Concrete instances of the dasum wrapper validation. -/
theorem dasumTs_validation_spec_witness :
    dasumTs (-1) [] 1 = Except.error "n must be positive" ∧
    dasumTs 0 [] 1 = Except.ok 0 ∧
    dasumTs 2 [3] 1 = Except.error "x array too small" := by
  refine ⟨?_, ?_, ?_⟩
  · exact (dasumTs_validation_spec (-1) [] 1).1 (by norm_num)
  · exact (dasumTs_validation_spec 0 [] 1).2.1 (by norm_num) (Or.inl rfl)
  · exact (dasumTs_validation_spec 2 [3] 1).2.2 (by norm_num) (by norm_num) (by norm_num)
